import Mathlib

/-!
Shallow embedding of the aggregation pipeline of `src/main.py`
(the `sync_local_csv` endpoint of the SmartStock Analytics API),
together with proofs of the specified properties.

The pipeline reads a batch of inventory-movement rows, accumulates
three dictionaries in one pass (`ventas_totales`, `ventas_por_mes`,
`stock_actual`), and materializes three derived collections
(`ventas_aggregadas`, `alertas_stock`, `estacionalidad`), replacing
the previous contents of each collection on success.
-/

namespace SmartStock

/-! ### Datetime values and `strptime`

`datetime.strptime(fecha, "%Y-%m-%d %H:%M:%S")` is modelled after
CPython's `_strptime` regular expressions:
`%Y` is exactly four digits; `%m` matches `1[0-2]|0[1-9]|[1-9]`;
`%d` matches `3[01]|[12]\d|0[1-9]|[1-9]| [1-9]`;
`%H` matches `2[0-3]|[0-1]\d|\d`; `%M` matches `[0-5]\d|\d`;
`%S` matches `6[0-1]|[0-5]\d|\d`; a literal space in the format
matches one or more whitespace characters; the whole string must be
consumed; then the `datetime` constructor validates the fields
(year at least 1, day at most the length of the month, second at
most 59 - the constructor rejects the leap seconds the regex admits).
-/

/-- A `datetime.datetime` value.  The pipeline only ever consumes the
month (via `strftime("%B")`), so of the constructor's validation we
record the invariant the pipeline relies on: the month is in 1..12. -/
structure Dt where
  year : Nat
  month : Nat
  day : Nat
  hour : Nat
  minute : Nat
  second : Nat
  month_valid : 1 ≤ month ∧ month ≤ 12

instance : DecidableEq Dt := fun a b =>
  decidable_of_iff
    (a.year = b.year ∧ a.month = b.month ∧ a.day = b.day ∧
      a.hour = b.hour ∧ a.minute = b.minute ∧ a.second = b.second)
    (by cases a; cases b; simp)

def digitVal (c : Char) : Nat := c.toNat - '0'.toNat

/-- `%Y`: exactly four digits. -/
def parseYear : List Char → Option (Nat × List Char)
  | a :: b :: c :: d :: rest =>
    if a.isDigit ∧ b.isDigit ∧ c.isDigit ∧ d.isDigit then
      some (1000 * digitVal a + 100 * digitVal b + 10 * digitVal c + digitVal d, rest)
    else none
  | _ => none

/-- `%m`: `1[0-2]|0[1-9]|[1-9]`. -/
def parseMonth : List Char → Option (Nat × List Char)
  | '1' :: c :: rest =>
    if c = '0' ∨ c = '1' ∨ c = '2' then some (10 + digitVal c, rest)
    else some (1, c :: rest)
  | '0' :: c :: rest =>
    if '1' ≤ c ∧ c ≤ '9' then some (digitVal c, rest) else none
  | c :: rest =>
    if '1' ≤ c ∧ c ≤ '9' then some (digitVal c, rest) else none
  | [] => none

/-- `%d`: `3[01]|[12]\d|0[1-9]|[1-9]| [1-9]`. -/
def parseDay : List Char → Option (Nat × List Char)
  | '3' :: '0' :: rest => some (30, rest)
  | '3' :: '1' :: rest => some (31, rest)
  | '1' :: c :: rest =>
    if c.isDigit then some (10 + digitVal c, rest) else some (1, c :: rest)
  | '2' :: c :: rest =>
    if c.isDigit then some (20 + digitVal c, rest) else some (2, c :: rest)
  | '0' :: c :: rest =>
    if '1' ≤ c ∧ c ≤ '9' then some (digitVal c, rest) else none
  | ' ' :: c :: rest =>
    if '1' ≤ c ∧ c ≤ '9' then some (digitVal c, rest) else none
  | c :: rest =>
    if '1' ≤ c ∧ c ≤ '9' then some (digitVal c, rest) else none
  | [] => none

/-- `%H`: `2[0-3]|[0-1]\d|\d`. -/
def parseHour : List Char → Option (Nat × List Char)
  | '2' :: c :: rest =>
    if '0' ≤ c ∧ c ≤ '3' then some (20 + digitVal c, rest) else some (2, c :: rest)
  | '0' :: c :: rest =>
    if c.isDigit then some (digitVal c, rest) else some (0, c :: rest)
  | '1' :: c :: rest =>
    if c.isDigit then some (10 + digitVal c, rest) else some (1, c :: rest)
  | c :: rest =>
    if c.isDigit then some (digitVal c, rest) else none
  | [] => none

/-- `%M`: `[0-5]\d|\d`. -/
def parseMinute : List Char → Option (Nat × List Char)
  | c1 :: c2 :: rest =>
    if '0' ≤ c1 ∧ c1 ≤ '5' ∧ c2.isDigit then
      some (10 * digitVal c1 + digitVal c2, rest)
    else if c1.isDigit then some (digitVal c1, c2 :: rest)
    else none
  | [c] => if c.isDigit then some (digitVal c, []) else none
  | [] => none

/-- `%S`: `6[0-1]|[0-5]\d|\d`. -/
def parseSecond : List Char → Option (Nat × List Char)
  | '6' :: c :: rest =>
    if c = '0' ∨ c = '1' then some (60 + digitVal c, rest) else some (6, c :: rest)
  | c1 :: c2 :: rest =>
    if '0' ≤ c1 ∧ c1 ≤ '5' ∧ c2.isDigit then
      some (10 * digitVal c1 + digitVal c2, rest)
    else if c1.isDigit then some (digitVal c1, c2 :: rest)
    else none
  | [c] => if c.isDigit then some (digitVal c, []) else none
  | [] => none

def isWs (c : Char) : Bool :=
  c = ' ' ∨ c = '\t' ∨ c = '\n' ∨ c = '\r' ∨ c = '\x0b' ∨ c = '\x0c'

def dropWs : List Char → List Char
  | c :: rest => if isWs c then dropWs rest else c :: rest
  | [] => []

/-- A literal space in the format string matches `\s+`. -/
def parseWs : List Char → Option (List Char)
  | c :: rest => if isWs c then some (dropWs rest) else none
  | [] => none

def parseLit (lit : Char) : List Char → Option (List Char)
  | c :: rest => if c = lit then some rest else none
  | [] => none

def isLeap (y : Nat) : Bool := y % 4 = 0 ∧ (y % 100 ≠ 0 ∨ y % 400 = 0)

def daysInMonth (y m : Nat) : Nat :=
  if m = 2 then (if isLeap y then 29 else 28)
  else if m = 4 ∨ m = 6 ∨ m = 9 ∨ m = 11 then 30
  else 31

/-- `datetime.strptime(s, "%Y-%m-%d %H:%M:%S")`, returning `none` where
Python raises `ValueError`. -/
def strptimeYmdHms (s : String) : Option Dt := do
  let l := s.toList
  let (y, l) ← parseYear l
  let l ← parseLit '-' l
  let (m, l) ← parseMonth l
  let l ← parseLit '-' l
  let (d, l) ← parseDay l
  let l ← parseWs l
  let (hh, l) ← parseHour l
  let l ← parseLit ':' l
  let (mm, l) ← parseMinute l
  let l ← parseLit ':' l
  let (ss, l) ← parseSecond l
  match l with
  | _ :: _ => none
  | [] =>
    if h : 1 ≤ y ∧ 1 ≤ m ∧ m ≤ 12 ∧ 1 ≤ d ∧ d ≤ daysInMonth y m ∧ ss ≤ 59 then
      some ⟨y, m, d, hh, mm, ss, ⟨h.2.1, h.2.2.1⟩⟩
    else none

/-- `strftime("%B").lower()` under the default C locale: the lowercase
English month name. -/
def monthName : Nat → String
  | 1 => "january"
  | 2 => "february"
  | 3 => "march"
  | 4 => "april"
  | 5 => "may"
  | 6 => "june"
  | 7 => "july"
  | 8 => "august"
  | 9 => "september"
  | 10 => "october"
  | 11 => "november"
  | 12 => "december"
  | _ => ""

/-- The twelve month-bucket keys, in calendar order. -/
def meses : List String :=
  ["january", "february", "march", "april", "may", "june",
   "july", "august", "september", "october", "november", "december"]

/-! ### Input rows -/

/-- The `fecha` cell of a row: either already a `datetime` value or a
string that still needs `strptime` (the code tests `isinstance(fecha, str)`). -/
inductive Fecha where
  | dt (d : Dt)
  | str (s : String)
deriving DecidableEq

/-- One row of the movement CSV as `sync_local_csv` reads it:
`producto_id`, optional `nombre_producto`, `tipo`, `cantidad`, `fecha`. -/
structure Row where
  producto_id : Int
  nombre_producto : Option String
  tipo : String
  cantidad : Int
  fecha : Fecha
deriving DecidableEq

/-! ### Python dict accumulators

`defaultdict` is modelled as an association list with distinct keys:
updating an existing key changes its value in place, a new key is
appended at the end (Python 3.7+ dicts preserve insertion order). -/

def alookup {α β : Type} [DecidableEq α] : List (α × β) → α → Option β
  | [], _ => none
  | (k', v) :: rest, k => if k' = k then some v else alookup rest k

def alookupD {α β : Type} [DecidableEq α] (l : List (α × β)) (k : α) (d : β) : β :=
  (alookup l k).getD d

/-- `dict[k] = f (dict.get(k, d))`: update in place, or append `(k, f d)`. -/
def bumpWith {α β : Type} [DecidableEq α] (d : β) (f : β → β) :
    List (α × β) → α → List (α × β)
  | [], k => [(k, f d)]
  | (k', v') :: rest, k =>
    if k' = k then (k', f v') :: rest else (k', v') :: bumpWith d f rest k

/-- `defaultdict(int)`: `dict[k] += v`. -/
def bump {α : Type} [DecidableEq α] (l : List (α × Int)) (k : α) (v : Int) :
    List (α × Int) :=
  bumpWith 0 (· + v) l k

/-- `defaultdict(lambda: defaultdict(int))`: `dict[k][mes] += v`. -/
def bump2 (l : List (Int × List (String × Int))) (k : Int) (mes : String) (v : Int) :
    List (Int × List (String × Int)) :=
  bumpWith [] (fun m => bump m mes v) l k

/-! ### The aggregation pass of `sync_local_csv` -/

/-- The three accumulators of the single pass. -/
structure Agg where
  ventas_totales : List (Int × Int)
  ventas_por_mes : List (Int × List (String × Int))
  stock_actual : List (Int × Int)
deriving DecidableEq

/-- `fecha.strftime("%B").lower()` after the `isinstance(fecha, str)`
normalization: parse the string if necessary, then take the month name.
An unparseable string is the `ValueError` that aborts the run. -/
def mesOf : Fecha → Except String String
  | .dt d => .ok (monthName d.month)
  | .str s =>
    match strptimeYmdHms s with
    | some d => .ok (monthName d.month)
    | none => .error s

/-- The body of the `for _, row in df.iterrows()` loop for one row. -/
def procRow (a : Agg) (r : Row) : Except String Agg :=
  let _nombre_producto :=
    r.nombre_producto.getD ("Producto " ++ toString r.producto_id)
  if r.tipo = "entrada" then
    .ok { a with stock_actual := bump a.stock_actual r.producto_id r.cantidad }
  else if r.tipo = "salida" then
    match mesOf r.fecha with
    | .error e => .error e
    | .ok mes =>
      .ok { ventas_totales := bump a.ventas_totales r.producto_id r.cantidad
            ventas_por_mes := bump2 a.ventas_por_mes r.producto_id mes r.cantidad
            stock_actual := bump a.stock_actual r.producto_id (-r.cantidad) }
  else
    .ok a

/-- The whole loop, threading the accumulators; the first `ValueError`
aborts the run. -/
def runAgg : Agg → List Row → Except String Agg
  | a, [] => .ok a
  | a, r :: rs =>
    match procRow a r with
    | .error e => .error e
    | .ok a' => runAgg a' rs

/-! ### Materialization -/

structure VentaRow where
  producto_id : Int
  nombre_producto : String
  total_ventas : Int
deriving DecidableEq

structure AlertaRow where
  producto_id : Int
  nombre_producto : String
  stock_actual : Int
  estado : String
deriving DecidableEq

structure EstacRow where
  producto_id : Int
  nombre_producto : String
  ventas_por_mes : List (String × Int)
deriving DecidableEq

/-- The three derived collections (also the database state they replace). -/
structure Output where
  ventas_aggregadas : List VentaRow
  alertas_stock : List AlertaRow
  estacionalidad : List EstacRow
deriving DecidableEq

/-- `"CRÍTICO" if stock < 10 else "BAJO" if stock < 50 else "NORMAL"`. -/
def estadoOf (stock : Int) : String :=
  if stock < 10 then "CRÍTICO" else if stock < 50 then "BAJO" else "NORMAL"

/-- The three insertion loops after the pass; every row is inserted with
the synthesized name `f"Producto {producto_id}"`. -/
def materialize (a : Agg) : Output where
  ventas_aggregadas := a.ventas_totales.map fun kv =>
    ⟨kv.1, "Producto " ++ toString kv.1, kv.2⟩
  alertas_stock := a.stock_actual.map fun kv =>
    ⟨kv.1, "Producto " ++ toString kv.1, kv.2, estadoOf kv.2⟩
  estacionalidad := a.ventas_por_mes.map fun kv =>
    ⟨kv.1, "Producto " ++ toString kv.1, kv.2⟩

/-- `sync_local_csv` as a function of the input batch: the aggregation
pass followed by materialization; any exception is reported as an error
response instead. -/
def sync_local_csv (rows : List Row) : Except String Output :=
  match runAgg ⟨[], [], []⟩ rows with
  | .error e => .error e
  | .ok a => .ok (materialize a)

/-- The endpoint's effect on the stored collections: the
`delete_many`/`insert_one` calls all happen after the loop, so on an
exception the previous collections are kept; on success all three are
replaced.  The boolean records whether the run succeeded. -/
def syncEndpoint (db : Output) (rows : List Row) : Output × Bool :=
  match sync_local_csv rows with
  | .error _ => (db, false)
  | .ok out => (out, true)

instance {ε α : Type} [DecidableEq ε] [DecidableEq α] : DecidableEq (Except ε α) :=
  fun a b =>
    match a, b with
    | .ok x, .ok y => decidable_of_iff (x = y) (by simp)
    | .error e, .error f => decidable_of_iff (e = f) (by simp)
    | .ok _, .error _ => isFalse (by simp)
    | .error _, .ok _ => isFalse (by simp)

/-! ### Specification-side record sums and appearance predicates -/

/-- Sum of the INBOUND (`entrada`) quantities of one product. -/
def inSum : List Row → Int → Int
  | [], _ => 0
  | r :: rs, pid =>
    (if r.tipo = "entrada" ∧ r.producto_id = pid then r.cantidad else 0) + inSum rs pid

/-- Sum of the OUTBOUND (`salida`) quantities of one product. -/
def outSum : List Row → Int → Int
  | [], _ => 0
  | r :: rs, pid =>
    (if r.tipo = "salida" ∧ r.producto_id = pid then r.cantidad else 0) + outSum rs pid

/-- Sum of the OUTBOUND (`salida`) quantities over the whole batch. -/
def outSumAll : List Row → Int
  | [] => 0
  | r :: rs => (if r.tipo = "salida" then r.cantidad else 0) + outSumAll rs

/-- The product appears in some OUTBOUND record. -/
def appearsOut (rows : List Row) (pid : Int) : Prop :=
  ∃ r ∈ rows, r.tipo = "salida" ∧ r.producto_id = pid

/-- The product appears in some INBOUND or OUTBOUND record. -/
def appearsAny (rows : List Row) (pid : Int) : Prop :=
  ∃ r ∈ rows, (r.tipo = "entrada" ∨ r.tipo = "salida") ∧ r.producto_id = pid

instance (rows : List Row) (pid : Int) : Decidable (appearsOut rows pid) :=
  decidable_of_iff (∃ r ∈ rows, r.tipo = "salida" ∧ r.producto_id = pid) Iff.rfl

instance (rows : List Row) (pid : Int) : Decidable (appearsAny rows pid) :=
  decidable_of_iff
    (∃ r ∈ rows, (r.tipo = "entrada" ∨ r.tipo = "salida") ∧ r.producto_id = pid)
    Iff.rfl

/-- Sum of the values of an association list. -/
def sumVals {α : Type} (l : List (α × Int)) : Int := (l.map Prod.snd).sum

/-- Structural invariant of the three accumulators: each dictionary has
distinct keys, `ventas_por_mes` and `ventas_totales` are keyed by the
same products, and for each product the monthly buckets are distinct,
are month names, and sum to the sales total. -/
def AggInv (a : Agg) : Prop :=
  (a.ventas_totales.map Prod.fst).Nodup ∧
  (a.stock_actual.map Prod.fst).Nodup ∧
  a.ventas_por_mes.map Prod.fst = a.ventas_totales.map Prod.fst ∧
  ∀ pid, ((alookupD a.ventas_por_mes pid []).map Prod.fst).Nodup ∧
    (∀ x ∈ (alookupD a.ventas_por_mes pid []).map Prod.fst, x ∈ meses) ∧
    sumVals (alookupD a.ventas_por_mes pid []) = alookupD a.ventas_totales pid 0

/-- The `fecha` cell will not raise on the `salida` path: it is either a
datetime value or a string the format accepts. -/
def fechaOk (f : Fecha) : Bool :=
  match mesOf f with
  | .ok _ => true
  | .error _ => false

/-- The `fecha` cell is a string rejected by
`strptime(s, "%Y-%m-%d %H:%M:%S")`. -/
def fechaBadStr (f : Fecha) : Bool :=
  match f with
  | .str s => (strptimeYmdHms s).isNone
  | .dt _ => false

/-! ### Concrete batches used to instantiate the theorems -/

def c2rows : List Row := [⟨1, some "Widget", "salida", 5, .str "2024-01-01 00:00:00"⟩]

def c2out : Output :=
  ⟨[⟨1, "Producto 1", 5⟩], [⟨1, "Producto 1", -5, "CRÍTICO"⟩],
   [⟨1, "Producto 1", [("january", 5)]⟩]⟩

def c4db : Output := ⟨[⟨9, "Producto 9", 99⟩], [], []⟩

def c4rows : List Row := [⟨1, none, "salida", 5, .str "2024/01/01"⟩]

def c5rows : List Row :=
  [⟨1, none, "entrada", 9, .str "x"⟩, ⟨2, none, "entrada", 10, .str "x"⟩,
   ⟨3, none, "entrada", 49, .str "x"⟩, ⟨4, none, "entrada", 50, .str "x"⟩]

def c5out : Output :=
  ⟨[],
   [⟨1, "Producto 1", 9, "CRÍTICO"⟩, ⟨2, "Producto 2", 10, "BAJO"⟩,
    ⟨3, "Producto 3", 49, "BAJO"⟩, ⟨4, "Producto 4", 50, "NORMAL"⟩],
   []⟩

def c6rows : List Row :=
  [⟨1, none, "salida", 3, .str "2024-05-02 10:00:00"⟩,
   ⟨2, none, "entrada", 4, .str "zz"⟩,
   ⟨1, none, "entrada", 10, .str "zz"⟩]

def c6out : Output :=
  ⟨[⟨1, "Producto 1", 3⟩],
   [⟨1, "Producto 1", 7, "CRÍTICO"⟩, ⟨2, "Producto 2", 4, "CRÍTICO"⟩],
   [⟨1, "Producto 1", [("may", 3)]⟩]⟩

def c7rows : List Row :=
  [⟨1, none, "entrada", 5, .str "x"⟩,
   ⟨1, none, "salida", 2, .str "2024-02-01 00:00:00"⟩,
   ⟨2, none, "salida", 3, .str "2024-06-15 08:00:00"⟩]

def c7out : Output :=
  ⟨[⟨1, "Producto 1", 2⟩, ⟨2, "Producto 2", 3⟩],
   [⟨1, "Producto 1", 3, "CRÍTICO"⟩, ⟨2, "Producto 2", -3, "CRÍTICO"⟩],
   [⟨1, "Producto 1", [("february", 2)]⟩, ⟨2, "Producto 2", [("june", 3)]⟩]⟩

def c8rows : List Row :=
  [⟨7, none, "entrada", 5, .str "2024-01-01 00:00:00"⟩,
   ⟨7, none, "salida", 8, .str "2024-03-05 10:00:00"⟩]

def c8out : Output :=
  ⟨[⟨7, "Producto 7", 8⟩], [⟨7, "Producto 7", -3, "CRÍTICO"⟩],
   [⟨7, "Producto 7", [("march", 8)]⟩]⟩

def c9rows : List Row :=
  [⟨3, none, "salida", 4, .str "2024-01-05 00:00:00"⟩,
   ⟨3, none, "salida", 6, .str "2023-07-01 12:30:00"⟩]

def c9out : Output :=
  ⟨[⟨3, "Producto 3", 10⟩], [⟨3, "Producto 3", -10, "CRÍTICO"⟩],
   [⟨3, "Producto 3", [("january", 4), ("july", 6)]⟩]⟩

def c10rows : List Row :=
  [⟨1, none, "entrada", 7, .str "13-2024-99 zz"⟩,
   ⟨1, none, "salida", 2, .str "2024-03-05 10:00:00"⟩]

def c10out : Output :=
  ⟨[⟨1, "Producto 1", 2⟩], [⟨1, "Producto 1", 5, "CRÍTICO"⟩],
   [⟨1, "Producto 1", [("march", 2)]⟩]⟩

/-! ### Association-list lemmas -/

section AListLemmas

variable {α β : Type} [DecidableEq α]

theorem alookup_bumpWith (d : β) (f : β → β) (l : List (α × β)) (k k' : α) :
    alookup (bumpWith d f l k) k' =
      if k = k' then some (f (alookupD l k d)) else alookup l k' := by
  induction l with
  | nil => by_cases h : k = k' <;> simp [bumpWith, alookup, alookupD, h]
  | cons hd tl ih =>
    obtain ⟨a, b⟩ := hd
    by_cases hak : a = k
    · subst hak
      by_cases hk' : a = k' <;> simp [bumpWith, alookup, alookupD, hk']
    · by_cases hk' : a = k'
      · subst hk'
        simp [bumpWith, alookup, alookupD, hak, Ne.symm hak]
      · simp [bumpWith, alookup, alookupD, hak, hk', ih]

theorem keys_bumpWith (d : β) (f : β → β) (l : List (α × β)) (k : α) :
    (bumpWith d f l k).map Prod.fst =
      if k ∈ l.map Prod.fst then l.map Prod.fst else l.map Prod.fst ++ [k] := by
  induction l with
  | nil => simp [bumpWith]
  | cons hd tl ih =>
    obtain ⟨a, b⟩ := hd
    by_cases hak : a = k
    · subst hak; simp [bumpWith]
    · have : ¬k = a := fun h => hak h.symm
      by_cases hk : k ∈ tl.map Prod.fst <;>
        simp [bumpWith, hak, ih, this, hk]

theorem mem_keys_bumpWith (d : β) (f : β → β) (l : List (α × β)) (k k' : α) :
    k' ∈ (bumpWith d f l k).map Prod.fst ↔ k' ∈ l.map Prod.fst ∨ k' = k := by
  rw [keys_bumpWith]
  split_ifs with h
  · constructor
    · exact Or.inl
    · rintro (hh | rfl)
      · exact hh
      · exact h
  · simp

theorem nodup_keys_bumpWith (d : β) (f : β → β) (l : List (α × β)) (k : α)
    (h : (l.map Prod.fst).Nodup) : ((bumpWith d f l k).map Prod.fst).Nodup := by
  rw [keys_bumpWith]
  split_ifs with hk
  · exact h
  · simp [List.nodup_append, h, hk]

theorem alookup_mem {l : List (α × β)} {k : α} {v : β} (h : alookup l k = some v) :
    (k, v) ∈ l := by
  induction l with
  | nil => simp [alookup] at h
  | cons hd tl ih =>
    obtain ⟨a, b⟩ := hd
    by_cases hak : a = k
    · subst hak
      simp [alookup] at h
      simp [h]
    · simp [alookup, hak] at h
      simp [ih h]

theorem alookup_eq_none {l : List (α × β)} {k : α} (h : k ∉ l.map Prod.fst) :
    alookup l k = none := by
  induction l with
  | nil => simp [alookup]
  | cons hd tl ih =>
    obtain ⟨a, b⟩ := hd
    have hka : ¬a = k := by
      intro hh
      exact h (by simp [hh])
    have htl : k ∉ tl.map Prod.fst := by
      intro hh
      exact h (by simp [hh])
    simp [alookup, hka, ih htl]

theorem alookup_isSome_of_mem {l : List (α × β)} {k : α}
    (h : k ∈ l.map Prod.fst) : ∃ v, alookup l k = some v := by
  induction l with
  | nil => simp at h
  | cons hd tl ih =>
    obtain ⟨a, b⟩ := hd
    by_cases hak : a = k
    · exact ⟨b, by simp [alookup, hak]⟩
    · rw [List.map_cons, List.mem_cons] at h
      rcases h with h | h
      · exact absurd h.symm hak
      · obtain ⟨v, hv⟩ := ih h
        exact ⟨v, by simp [alookup, hak, hv]⟩

theorem mem_keys_bump (l : List (α × Int)) (k k' : α) (v : Int) :
    k' ∈ (bump l k v).map Prod.fst ↔ k' ∈ l.map Prod.fst ∨ k' = k :=
  mem_keys_bumpWith _ _ _ _ _

theorem nodup_keys_bump (l : List (α × Int)) (k : α) (v : Int)
    (h : (l.map Prod.fst).Nodup) : ((bump l k v).map Prod.fst).Nodup :=
  nodup_keys_bumpWith _ _ _ _ h

theorem alookupD_bump (l : List (α × Int)) (k k' : α) (v : Int) :
    alookupD (bump l k v) k' 0 =
      alookupD l k' 0 + if k = k' then v else 0 := by
  unfold bump alookupD
  rw [alookup_bumpWith]
  split_ifs with h
  · subst h; simp [alookupD]
  · simp

theorem alookupD_bump2 (l : List (Int × List (String × Int))) (k k' : Int)
    (mes : String) (v : Int) :
    alookupD (bump2 l k mes v) k' [] =
      if k = k' then bump (alookupD l k []) mes v else alookupD l k' [] := by
  unfold bump2 alookupD
  rw [alookup_bumpWith]
  split_ifs <;> simp [alookupD]

theorem sumVals_bump (l : List (α × Int)) (k : α) (v : Int) :
    sumVals (bump l k v) = sumVals l + v := by
  induction l with
  | nil => simp [bump, bumpWith, sumVals]
  | cons hd tl ih =>
    obtain ⟨a, b⟩ := hd
    by_cases hak : a = k
    · subst hak
      simp [bump, bumpWith, sumVals]
      ring
    · have : bump ((a, b) :: tl) k v = (a, b) :: bump tl k v := by
        simp [bump, bumpWith, hak]
      rw [this]
      simp [sumVals] at ih ⊢
      rw [ih]
      ring

theorem countP_fst_eq_one {l : List (α × β)} {k : α}
    (hnd : (l.map Prod.fst).Nodup) (hm : k ∈ l.map Prod.fst) :
    l.countP (fun kv => decide (kv.1 = k)) = 1 := by
  induction l with
  | nil => simp at hm
  | cons hd tl ih =>
    obtain ⟨a, b⟩ := hd
    rw [List.map_cons] at hnd hm
    rw [List.nodup_cons] at hnd
    by_cases hak : a = k
    · subst hak
      have hz : tl.countP (fun kv => decide (kv.1 = a)) = 0 := by
        rw [List.countP_eq_zero]
        intro kv hkv
        simp only [decide_eq_true_eq]
        intro hh
        apply hnd.1
        rw [← hh]
        exact List.mem_map.mpr ⟨kv, hkv, rfl⟩
      simp [List.countP_cons, hz]
    · rw [List.mem_cons] at hm
      rcases hm with hm | hm
      · exact absurd hm.symm hak
      · simp [List.countP_cons, hak, ih hnd.2 hm]

end AListLemmas

/-! ### Step lemmas for one loop iteration -/

theorem procRow_entrada {a : Agg} {r : Row} (h : r.tipo = "entrada") :
    procRow a r =
      .ok { a with stock_actual := bump a.stock_actual r.producto_id r.cantidad } := by
  simp [procRow, h]

theorem procRow_salida_ok {a : Agg} {r : Row} {mes : String}
    (h : r.tipo = "salida") (hm : mesOf r.fecha = .ok mes) :
    procRow a r =
      .ok ⟨bump a.ventas_totales r.producto_id r.cantidad,
        bump2 a.ventas_por_mes r.producto_id mes r.cantidad,
        bump a.stock_actual r.producto_id (-r.cantidad)⟩ := by
  have hne : ¬r.tipo = "entrada" := by rw [h]; decide
  simp [procRow, hne, h, hm]

theorem procRow_salida_err {a : Agg} {r : Row} {e : String}
    (h : r.tipo = "salida") (hm : mesOf r.fecha = .error e) :
    procRow a r = .error e := by
  have hne : ¬r.tipo = "entrada" := by rw [h]; decide
  simp [procRow, hne, h, hm]

theorem procRow_other {a : Agg} {r : Row}
    (h1 : ¬r.tipo = "entrada") (h2 : ¬r.tipo = "salida") :
    procRow a r = .ok a := by
  simp [procRow, h1, h2]

theorem appearsAny_cons {r : Row} {rs : List Row} {pid : Int} :
    appearsAny (r :: rs) pid ↔
      ((r.tipo = "entrada" ∨ r.tipo = "salida") ∧ r.producto_id = pid) ∨
        appearsAny rs pid := by
  simp [appearsAny]

theorem appearsOut_cons {r : Row} {rs : List Row} {pid : Int} :
    appearsOut (r :: rs) pid ↔
      (r.tipo = "salida" ∧ r.producto_id = pid) ∨ appearsOut rs pid := by
  simp [appearsOut]

/-! ### Month names -/

theorem monthName_mem_meses {m : Nat} (h1 : 1 ≤ m) (h2 : m ≤ 12) :
    monthName m ∈ meses := by
  interval_cases m <;> decide

theorem mesOf_mem_meses {f : Fecha} {mes : String} (h : mesOf f = .ok mes) :
    mes ∈ meses := by
  cases f with
  | dt d =>
    simp [mesOf] at h
    rw [← h]
    exact monthName_mem_meses d.month_valid.1 d.month_valid.2
  | str s =>
    cases hp : strptimeYmdHms s with
    | none => simp [mesOf, hp] at h
    | some d =>
      simp [mesOf, hp] at h
      rw [← h]
      exact monthName_mem_meses d.month_valid.1 d.month_valid.2

/-! ### Summing the twelve month buckets -/

theorem sum_map_ite (M : List String) (k : String) (v : Int) (g : String → Int)
    (hM : M.Nodup) (hk : k ∈ M) :
    (M.map fun x => if k = x then v else g x).sum = (M.map g).sum + v - g k := by
  induction M with
  | nil => simp at hk
  | cons m M' ih =>
    rw [List.nodup_cons] at hM
    by_cases hkm : k = m
    · subst hkm
      have hcong : ∀ x ∈ M', (if k = x then v else g x) = g x := by
        intro x hx
        rw [if_neg]
        intro hh
        rw [hh] at hM
        exact hM.1 hx
      rw [List.map_cons, List.map_cons, List.sum_cons, List.sum_cons, if_pos rfl,
        List.map_congr_left hcong]
      ring
    · rw [List.mem_cons] at hk
      rcases hk with hk | hk
      · exact absurd hk hkm
      · rw [List.map_cons, List.map_cons, List.sum_cons, List.sum_cons, if_neg hkm,
          ih hM.2 hk]
        ring

theorem sum_over_month_keys (l : List (String × Int)) (M : List String)
    (hM : M.Nodup) (hsub : ∀ x ∈ l.map Prod.fst, x ∈ M)
    (hnd : (l.map Prod.fst).Nodup) :
    (M.map fun mn => alookupD l mn 0).sum = sumVals l := by
  induction l with
  | nil => simp [alookupD, alookup, sumVals]
  | cons hd tl ih =>
    obtain ⟨k, v⟩ := hd
    rw [List.map_cons] at hsub hnd
    rw [List.nodup_cons] at hnd
    have hcong : ∀ mn ∈ M, alookupD ((k, v) :: tl) mn 0 =
        if k = mn then v else alookupD tl mn 0 := by
      intro mn _
      simp only [alookupD, alookup]
      split_ifs <;> simp
    have hzero : alookupD tl k 0 = 0 := by
      simp [alookupD, alookup_eq_none hnd.1]
    rw [List.map_congr_left hcong,
      sum_map_ite M k v _ hM (hsub k (List.mem_cons_self _ _)),
      ih (fun x hx => hsub x (List.mem_cons_of_mem _ hx)) hnd.2, hzero]
    simp [sumVals]
    ring

/-! ### Characterization of the aggregation pass -/

theorem runAgg_spec : ∀ (rows : List Row) (a b : Agg), runAgg a rows = .ok b →
    (∀ pid, alookupD b.stock_actual pid 0 =
        alookupD a.stock_actual pid 0 + inSum rows pid - outSum rows pid) ∧
    (∀ pid, alookupD b.ventas_totales pid 0 =
        alookupD a.ventas_totales pid 0 + outSum rows pid) ∧
    sumVals b.ventas_totales = sumVals a.ventas_totales + outSumAll rows ∧
    (∀ pid, pid ∈ b.stock_actual.map Prod.fst ↔
        pid ∈ a.stock_actual.map Prod.fst ∨ appearsAny rows pid) ∧
    (∀ pid, pid ∈ b.ventas_totales.map Prod.fst ↔
        pid ∈ a.ventas_totales.map Prod.fst ∨ appearsOut rows pid) := by
  intro rows
  induction rows with
  | nil =>
    intro a b h
    have hb : a = b := by simpa [runAgg] using h
    subst hb
    simp [inSum, outSum, outSumAll, appearsAny, appearsOut]
  | cons r rs ih =>
    intro a b h
    by_cases h1 : r.tipo = "entrada"
    · have hns : ¬r.tipo = "salida" := by rw [h1]; decide
      simp only [runAgg, procRow_entrada h1] at h
      obtain ⟨hs, hv, hsum, hms, hmv⟩ := ih _ b h
      dsimp only at hs hv hsum hms hmv
      refine ⟨?_, ?_, ?_, ?_, ?_⟩
      · intro pid
        rw [hs pid]
        simp only [alookupD_bump, inSum, outSum, h1, hns]
        by_cases hp : r.producto_id = pid <;> simp [hp] <;> ring
      · intro pid
        rw [hv pid]
        simp only [outSum, hns]
        simp
      · rw [hsum]
        simp only [outSumAll, hns]
        simp
      · intro pid
        rw [hms pid, mem_keys_bump, appearsAny_cons]
        simp only [h1, true_or, true_and]
        constructor
        · rintro ((hh | rfl) | hh)
          · exact Or.inl hh
          · exact Or.inr (Or.inl rfl)
          · exact Or.inr (Or.inr hh)
        · rintro (hh | (rfl | hh))
          · exact Or.inl (Or.inl hh)
          · exact Or.inl (Or.inr rfl)
          · exact Or.inr hh
      · intro pid
        rw [hmv pid, appearsOut_cons]
        simp [hns]
    · by_cases h2 : r.tipo = "salida"
      · cases hm : mesOf r.fecha with
        | error e =>
          simp only [runAgg, procRow_salida_err h2 hm] at h
          cases h
        | ok mes =>
          simp only [runAgg, procRow_salida_ok h2 hm] at h
          obtain ⟨hs, hv, hsum, hms, hmv⟩ := ih _ b h
          dsimp only at hs hv hsum hms hmv
          refine ⟨?_, ?_, ?_, ?_, ?_⟩
          · intro pid
            rw [hs pid]
            simp only [alookupD_bump, inSum, outSum, h1, h2]
            by_cases hp : r.producto_id = pid <;> simp [hp] <;> ring
          · intro pid
            rw [hv pid]
            simp only [alookupD_bump, outSum, h2]
            by_cases hp : r.producto_id = pid <;> simp [hp] <;> ring
          · rw [hsum, sumVals_bump]
            simp only [outSumAll, h2]
            simp
            ring
          · intro pid
            rw [hms pid, mem_keys_bump, appearsAny_cons]
            simp only [h2, or_true, true_and]
            constructor
            · rintro ((hh | rfl) | hh)
              · exact Or.inl hh
              · exact Or.inr (Or.inl rfl)
              · exact Or.inr (Or.inr hh)
            · rintro (hh | (rfl | hh))
              · exact Or.inl (Or.inl hh)
              · exact Or.inl (Or.inr rfl)
              · exact Or.inr hh
          · intro pid
            rw [hmv pid, mem_keys_bump, appearsOut_cons]
            simp only [h2, true_and]
            constructor
            · rintro ((hh | rfl) | hh)
              · exact Or.inl hh
              · exact Or.inr (Or.inl rfl)
              · exact Or.inr (Or.inr hh)
            · rintro (hh | (rfl | hh))
              · exact Or.inl (Or.inl hh)
              · exact Or.inl (Or.inr rfl)
              · exact Or.inr hh
      · simp only [runAgg, procRow_other h1 h2] at h
        obtain ⟨hs, hv, hsum, hms, hmv⟩ := ih _ b h
        refine ⟨?_, ?_, ?_, ?_, ?_⟩
        · intro pid
          rw [hs pid]
          simp [inSum, outSum, h1, h2]
        · intro pid
          rw [hv pid]
          simp [outSum, h2]
        · rw [hsum]
          simp [outSumAll, h2]
        · intro pid
          rw [hms pid, appearsAny_cons]
          simp [h1, h2]
        · intro pid
          rw [hmv pid, appearsOut_cons]
          simp [h2]

theorem runAgg_inv : ∀ (rows : List Row) (a b : Agg),
    runAgg a rows = .ok b → AggInv a → AggInv b := by
  intro rows
  induction rows with
  | nil =>
    intro a b h ha
    have hb : a = b := by simpa [runAgg] using h
    exact hb ▸ ha
  | cons r rs ih =>
    intro a b h ha
    obtain ⟨hvt, hst, hkeq, hinner⟩ := ha
    by_cases h1 : r.tipo = "entrada"
    · simp only [runAgg, procRow_entrada h1] at h
      exact ih _ b h ⟨hvt, nodup_keys_bump _ _ _ hst, hkeq, hinner⟩
    · by_cases h2 : r.tipo = "salida"
      · cases hm : mesOf r.fecha with
        | error e =>
          simp only [runAgg, procRow_salida_err h2 hm] at h
          cases h
        | ok mes =>
          simp only [runAgg, procRow_salida_ok h2 hm] at h
          apply ih _ b h
          refine ⟨nodup_keys_bump _ _ _ hvt, nodup_keys_bump _ _ _ hst, ?_, ?_⟩
          · show (bump2 a.ventas_por_mes r.producto_id mes r.cantidad).map Prod.fst =
              (bump a.ventas_totales r.producto_id r.cantidad).map Prod.fst
            unfold bump2 bump
            rw [keys_bumpWith, keys_bumpWith, hkeq]
          · intro pid
            dsimp only
            rw [alookupD_bump2, alookupD_bump]
            by_cases hp : r.producto_id = pid
            · rw [if_pos hp, if_pos hp]
              obtain ⟨hnd, hsub, hsum⟩ := hinner pid
              rw [← hp] at hnd hsub hsum
              refine ⟨nodup_keys_bump _ _ _ hnd, ?_, ?_⟩
              · intro x hx
                rw [mem_keys_bump] at hx
                rcases hx with hx | rfl
                · exact hsub x hx
                · exact mesOf_mem_meses hm
              · rw [sumVals_bump, hsum, hp]
            · rw [if_neg hp, if_neg hp]
              have := hinner pid
              simpa using this
      · simp only [runAgg, procRow_other h1 h2] at h
        exact ih _ b h ⟨hvt, hst, hkeq, hinner⟩

theorem aggInv_empty : AggInv ⟨[], [], []⟩ := by
  refine ⟨List.nodup_nil, List.nodup_nil, rfl, ?_⟩
  intro pid
  simp [alookupD, alookup, sumVals]

/-! ### From the endpoint to the pass -/

theorem sync_ok_elim {rows : List Row} {out : Output}
    (h : sync_local_csv rows = .ok out) :
    ∃ agg, runAgg ⟨[], [], []⟩ rows = .ok agg ∧ out = materialize agg := by
  unfold sync_local_csv at h
  cases hr : runAgg ⟨[], [], []⟩ rows with
  | error e =>
    rw [hr] at h
    cases h
  | ok agg =>
    rw [hr] at h
    simp only [Except.ok.injEq] at h
    exact ⟨agg, rfl, h.symm⟩

theorem runAgg_ok_of_dates : ∀ (rows : List Row) (a : Agg),
    (∀ r ∈ rows, r.tipo = "salida" → ∃ m, mesOf r.fecha = .ok m) →
    ∃ b, runAgg a rows = .ok b := by
  intro rows
  induction rows with
  | nil => exact fun a _ => ⟨a, rfl⟩
  | cons r rs ih =>
    intro a hok
    have hok' : ∀ r' ∈ rs, r'.tipo = "salida" → ∃ m, mesOf r'.fecha = .ok m :=
      fun r' hr' => hok r' (List.mem_cons_of_mem _ hr')
    by_cases h1 : r.tipo = "entrada"
    · obtain ⟨b, hb⟩ := ih _ hok'
      exact ⟨b, by simp only [runAgg, procRow_entrada h1]; exact hb⟩
    · by_cases h2 : r.tipo = "salida"
      · obtain ⟨m, hm⟩ := hok r (List.mem_cons_self _ _) h2
        obtain ⟨b, hb⟩ := ih _ hok'
        exact ⟨b, by simp only [runAgg, procRow_salida_ok h2 hm]; exact hb⟩
      · obtain ⟨b, hb⟩ := ih _ hok'
        exact ⟨b, by simp only [runAgg, procRow_other h1 h2]; exact hb⟩

/-- On a successful run, every product with an INBOUND or OUTBOUND record
gets an `alertas_stock` row whose stock is its INBOUND minus OUTBOUND sum
and whose estado is derived from that stock. -/
theorem sync_stock_entry {rows : List Row} {out : Output} {pid : Int}
    (h : sync_local_csv rows = .ok out) (hpid : appearsAny rows pid) :
    ∃ a ∈ out.alertas_stock, a.producto_id = pid ∧
      a.nombre_producto = "Producto " ++ toString pid ∧
      a.stock_actual = inSum rows pid - outSum rows pid ∧
      a.estado = estadoOf (inSum rows pid - outSum rows pid) := by
  obtain ⟨agg, hr, hout⟩ := sync_ok_elim h
  obtain ⟨hs, _, _, hms, _⟩ := runAgg_spec rows _ agg hr
  have hmem : pid ∈ agg.stock_actual.map Prod.fst := by
    rw [hms pid]
    exact Or.inr hpid
  obtain ⟨s, hsv⟩ := alookup_isSome_of_mem hmem
  have hval : s = inSum rows pid - outSum rows pid := by
    have := hs pid
    simp [alookupD, alookup, hsv] at this
    omega
  refine ⟨⟨pid, "Producto " ++ toString pid, s, estadoOf s⟩, ?_, rfl, rfl, hval, by rw [hval]⟩
  rw [hout]
  simp only [materialize]
  exact List.mem_map.mpr ⟨(pid, s), alookup_mem hsv, rfl⟩

/-- On a successful run, every product with an OUTBOUND record gets a
`ventas_aggregadas` row whose total is its OUTBOUND sum. -/
theorem sync_ventas_entry {rows : List Row} {out : Output} {pid : Int}
    (h : sync_local_csv rows = .ok out) (hpid : appearsOut rows pid) :
    ∃ v ∈ out.ventas_aggregadas, v.producto_id = pid ∧
      v.nombre_producto = "Producto " ++ toString pid ∧
      v.total_ventas = outSum rows pid := by
  obtain ⟨agg, hr, hout⟩ := sync_ok_elim h
  obtain ⟨_, hv, _, _, hmv⟩ := runAgg_spec rows _ agg hr
  have hmem : pid ∈ agg.ventas_totales.map Prod.fst := by
    rw [hmv pid]
    exact Or.inr hpid
  obtain ⟨t, htv⟩ := alookup_isSome_of_mem hmem
  have hval : t = outSum rows pid := by
    have := hv pid
    simp [alookupD, alookup, htv] at this
    omega
  refine ⟨⟨pid, "Producto " ++ toString pid, t⟩, ?_, rfl, rfl, hval⟩
  rw [hout]
  simp only [materialize]
  exact List.mem_map.mpr ⟨(pid, t), alookup_mem htv, rfl⟩

theorem meses_nodup : meses.Nodup := by decide

/-- On a successful run, every product with an OUTBOUND record gets an
`estacionalidad` row whose twelve month buckets sum to its OUTBOUND sum. -/
theorem sync_estac_entry {rows : List Row} {out : Output} {pid : Int}
    (h : sync_local_csv rows = .ok out) (hpid : appearsOut rows pid) :
    ∃ e ∈ out.estacionalidad, e.producto_id = pid ∧
      e.nombre_producto = "Producto " ++ toString pid ∧
      (meses.map fun mn => alookupD e.ventas_por_mes mn 0).sum = outSum rows pid := by
  obtain ⟨agg, hr, hout⟩ := sync_ok_elim h
  obtain ⟨_, hv, _, _, hmv⟩ := runAgg_spec rows _ agg hr
  obtain ⟨hvt, _, hkeq, hinner⟩ := runAgg_inv rows _ agg hr aggInv_empty
  have hmemv : pid ∈ agg.ventas_totales.map Prod.fst := by
    rw [hmv pid]
    exact Or.inr hpid
  have hmemm : pid ∈ agg.ventas_por_mes.map Prod.fst := by
    rw [hkeq]
    exact hmemv
  obtain ⟨m, hm⟩ := alookup_isSome_of_mem hmemm
  obtain ⟨hnd, hsub, hsum⟩ := hinner pid
  have hdm : alookupD agg.ventas_por_mes pid [] = m := by simp [alookupD, hm]
  rw [hdm] at hnd hsub hsum
  have hvt_val : alookupD agg.ventas_totales pid 0 = outSum rows pid := by
    simpa [alookupD, alookup] using hv pid
  have hsum12 : (meses.map fun mn => alookupD m mn 0).sum = outSum rows pid := by
    rw [sum_over_month_keys m meses meses_nodup hsub hnd, hsum, hvt_val]
  refine ⟨⟨pid, "Producto " ++ toString pid, m⟩, ?_, rfl, rfl, hsum12⟩
  rw [hout]
  simp only [materialize]
  exact List.mem_map.mpr ⟨(pid, m), alookup_mem hm, rfl⟩

/-- Rows whose `tipo` is neither `entrada` nor `salida` have no effect on
the pass. -/
theorem runAgg_filter : ∀ (rows : List Row) (a : Agg),
    runAgg a rows =
      runAgg a (rows.filter fun r =>
        decide (r.tipo = "entrada" ∨ r.tipo = "salida")) := by
  intro rows
  induction rows with
  | nil => intro a; rfl
  | cons r rs ih =>
    intro a
    by_cases h1 : r.tipo = "entrada"
    · rw [List.filter_cons_of_pos (by simp [h1])]
      simp only [runAgg]
      cases hp : procRow a r with
      | error e => rfl
      | ok a' => exact ih a'
    · by_cases h2 : r.tipo = "salida"
      · rw [List.filter_cons_of_pos (by simp [h2])]
        simp only [runAgg]
        cases hp : procRow a r with
        | error e => rfl
        | ok a' => exact ih a'
      · rw [List.filter_cons_of_neg (by simp [h1, h2])]
        simp only [runAgg, procRow_other h1 h2]
        exact ih a

/-- A `salida` row with an unparseable string date makes the whole pass
raise, whatever came before or after it. -/
theorem runAgg_error_of_bad : ∀ (rows : List Row) (a : Agg) (r : Row) (e : String),
    r ∈ rows → r.tipo = "salida" → mesOf r.fecha = .error e →
    ∃ e', runAgg a rows = .error e' := by
  intro rows
  induction rows with
  | nil =>
    intro a r e hr
    cases hr
  | cons r0 rs ih =>
    intro a r e hr h2 hm
    rw [List.mem_cons] at hr
    cases hp : procRow a r0 with
    | error e0 => exact ⟨e0, by simp only [runAgg, hp]⟩
    | ok a' =>
      rcases hr with rfl | hr
      · rw [procRow_salida_err h2 hm] at hp
        cases hp
      · obtain ⟨e', he'⟩ := ih a' r e hr h2 hm
        refine ⟨e', ?_⟩
        simp only [runAgg, hp]
        exact he'

theorem fechaOk_elim {f : Fecha} (h : fechaOk f = true) :
    ∃ m, mesOf f = .ok m := by
  unfold fechaOk at h
  cases hm : mesOf f with
  | ok m => exact ⟨m, rfl⟩
  | error e => rw [hm] at h; cases h

theorem fechaBadStr_elim {f : Fecha} (h : fechaBadStr f = true) :
    ∃ e, mesOf f = .error e := by
  cases f with
  | dt d => cases h
  | str s =>
    unfold fechaBadStr at h
    rw [Option.isNone_iff_eq_none] at h
    exact ⟨s, by simp [mesOf, h]⟩

/-! ### The claims -/

/-- C1: on the batch [p1 INBOUND 100 at 2024-01-01, p1 OUTBOUND 30 at
2024-01-15, p1 OUTBOUND 20 at 2024-02-01] the run produces SalesTotal 50
for p1, StockAlert with stock 50 and level NORMAL, and a Seasonality
entry whose buckets, read through the twelve fixed lowercase
English-locale month names, give 30 for January, 20 for February and 0
for every other month. -/
theorem claim_C1 :
    sync_local_csv
      [⟨1, none, "entrada", 100, .str "2024-01-01 00:00:00"⟩,
       ⟨1, none, "salida", 30, .str "2024-01-15 00:00:00"⟩,
       ⟨1, none, "salida", 20, .str "2024-02-01 00:00:00"⟩] =
      .ok ⟨[⟨1, "Producto 1", 50⟩], [⟨1, "Producto 1", 50, "NORMAL"⟩],
        [⟨1, "Producto 1", [("january", 30), ("february", 20)]⟩]⟩ ∧
    (meses.map fun mn =>
      alookupD [("january", (30 : Int)), ("february", 20)] mn 0) =
      [30, 20, 0, 0, 0, 0, 0, 0, 0, 0, 0, 0] := by
  constructor
  · decide
  · decide

/-- C2 counterexample: a record that supplies the name "Widget" still
yields derived rows named "Producto 1": the input-supplied name is not
carried into any derived entry. -/
theorem claim_C2_counterexample :
    sync_local_csv c2rows = .ok c2out ∧
    c2out.ventas_aggregadas.map VentaRow.nombre_producto = ["Producto 1"] ∧
    ("Producto 1" : String) ≠ "Widget" := by
  refine ⟨by decide, by decide, by decide⟩

/-- C2 amended: line 90 resolves a name from the record's own name field
(falling back to "Producto {id}") but the resolved name is discarded:
every derived SalesTotal, StockAlert and Seasonality entry carries the
synthesized "Producto {product_id}" name, even when the input supplied a
name for that product. -/
theorem claim_C2_amended (rows : List Row) (out : Output)
    (h : sync_local_csv rows = .ok out) :
    (∀ v ∈ out.ventas_aggregadas,
      v.nombre_producto = "Producto " ++ toString v.producto_id) ∧
    (∀ a ∈ out.alertas_stock,
      a.nombre_producto = "Producto " ++ toString a.producto_id) ∧
    (∀ e ∈ out.estacionalidad,
      e.nombre_producto = "Producto " ++ toString e.producto_id) := by
  obtain ⟨agg, _, hout⟩ := sync_ok_elim h
  subst hout
  refine ⟨?_, ?_, ?_⟩ <;>
    · intro x hx
      simp only [materialize] at hx
      obtain ⟨kv, _, rfl⟩ := List.mem_map.mp hx
      rfl

theorem claim_C2_amended_witness :
    sync_local_csv c2rows = .ok c2out ∧
    (⟨1, "Producto 1", 5⟩ : VentaRow).nombre_producto =
      "Producto " ++ toString (⟨1, "Producto 1", 5⟩ : VentaRow).producto_id :=
  ⟨by decide, (claim_C2_amended c2rows c2out (by decide)).1 _ (by decide)⟩

/-- C3 counterexample: a batch containing a record with the unrecognized
movement type "ajuste" does not abort: the run succeeds, the record is
silently skipped, and derived rows are still produced from the remaining
records. -/
theorem claim_C3_counterexample :
    sync_local_csv
      [⟨1, none, "ajuste", 5, .str "not-a-date"⟩,
       ⟨2, none, "entrada", 7, .str "also-not-a-date"⟩] =
      .ok ⟨[], [⟨2, "Producto 2", 7, "CRÍTICO"⟩], []⟩ := by
  decide

/-- C3 amended: records whose movement_type is neither INBOUND nor
OUTBOUND are silently ignored: the run behaves exactly as if those
records were absent, and no validation error is raised for them. -/
theorem claim_C3_amended (rows : List Row) :
    sync_local_csv rows =
      sync_local_csv (rows.filter fun r =>
        decide (r.tipo = "entrada" ∨ r.tipo = "salida")) := by
  unfold sync_local_csv
  rw [← runAgg_filter]

/-- C4 counterexample: the timestamp "2024-1-15 0:0:0" does not match
the exact pattern YYYY-MM-DD HH:MM:SS, yet the run succeeds and the
stored collections are replaced (strptime accepts non-zero-padded
fields). -/
theorem claim_C4_counterexample :
    syncEndpoint c4db [⟨1, none, "salida", 5, .str "2024-1-15 0:0:0"⟩] =
      (⟨[⟨1, "Producto 1", 5⟩], [⟨1, "Producto 1", -5, "CRÍTICO"⟩],
        [⟨1, "Producto 1", [("january", 5)]⟩]⟩, true) := by
  decide

/-- C4 amended: a batch containing a `salida` record whose timestamp is
a string rejected by strptime with format %Y-%m-%d %H:%M:%S (the parser
is lenient about zero-padding of month, day, hour, minute and second,
but requires a four-digit year and these separators) makes the run fail,
and none of the three stored collections is replaced. -/
theorem claim_C4_amended (db : Output) (rows : List Row)
    (hbad : ∃ r ∈ rows, r.tipo = "salida" ∧ fechaBadStr r.fecha = true) :
    syncEndpoint db rows = (db, false) := by
  obtain ⟨r, hr, h2, hb⟩ := hbad
  obtain ⟨e, hm⟩ := fechaBadStr_elim hb
  obtain ⟨e', he'⟩ := runAgg_error_of_bad rows ⟨[], [], []⟩ r e hr h2 hm
  unfold syncEndpoint sync_local_csv
  rw [he']

theorem claim_C4_amended_witness :
    (∃ r ∈ c4rows, r.tipo = "salida" ∧ fechaBadStr r.fecha = true) ∧
    syncEndpoint c4db c4rows = (c4db, false) :=
  ⟨by decide, claim_C4_amended c4db c4rows (by decide)⟩

/-- C5: on every successful run, every materialized alert level is the
pure threshold function of the final stock: stock < 10 gives CRÍTICO,
10 ≤ stock < 50 gives BAJO, 50 ≤ stock gives NORMAL. -/
theorem claim_C5 (rows : List Row) (out : Output)
    (h : sync_local_csv rows = .ok out) (a : AlertaRow)
    (ha : a ∈ out.alertas_stock) :
    (a.stock_actual < 10 → a.estado = "CRÍTICO") ∧
    (10 ≤ a.stock_actual → a.stock_actual < 50 → a.estado = "BAJO") ∧
    (50 ≤ a.stock_actual → a.estado = "NORMAL") := by
  obtain ⟨agg, _, hout⟩ := sync_ok_elim h
  subst hout
  simp only [materialize] at ha
  obtain ⟨kv, _, rfl⟩ := List.mem_map.mp ha
  dsimp only
  refine ⟨?_, ?_, ?_⟩
  · intro hlt
    simp [estadoOf, hlt]
  · intro h10 h50
    have h1 : ¬kv.2 < 10 := by omega
    simp [estadoOf, h1, h50]
  · intro h50
    have h1 : ¬kv.2 < 10 := by omega
    have h2 : ¬kv.2 < 50 := by omega
    simp [estadoOf, h1, h2]

theorem claim_C5_witness :
    sync_local_csv c5rows = .ok c5out ∧
    (⟨1, "Producto 1", 9, "CRÍTICO"⟩ : AlertaRow).estado = "CRÍTICO" ∧
    (⟨2, "Producto 2", 10, "BAJO"⟩ : AlertaRow).estado = "BAJO" ∧
    (⟨3, "Producto 3", 49, "BAJO"⟩ : AlertaRow).estado = "BAJO" ∧
    (⟨4, "Producto 4", 50, "NORMAL"⟩ : AlertaRow).estado = "NORMAL" :=
  ⟨by decide,
   (claim_C5 c5rows c5out (by decide) _ (by decide)).1 (by decide),
   (claim_C5 c5rows c5out (by decide) _ (by decide)).2.1 (by decide) (by decide),
   (claim_C5 c5rows c5out (by decide) _ (by decide)).2.1 (by decide) (by decide),
   (claim_C5 c5rows c5out (by decide) _ (by decide)).2.2 (by decide)⟩

/-- C6: on every successful run, a product with an OUTBOUND record has
exactly one SalesTotal row and exactly one Seasonality row, and a
product with any INBOUND or OUTBOUND record has exactly one StockAlert
row. -/
theorem claim_C6 (rows : List Row) (out : Output)
    (h : sync_local_csv rows = .ok out) (pid : Int) :
    (appearsOut rows pid →
      out.ventas_aggregadas.countP (fun v => decide (v.producto_id = pid)) = 1 ∧
      out.estacionalidad.countP (fun e => decide (e.producto_id = pid)) = 1) ∧
    (appearsAny rows pid →
      out.alertas_stock.countP (fun a => decide (a.producto_id = pid)) = 1) := by
  obtain ⟨agg, hr, hout⟩ := sync_ok_elim h
  obtain ⟨_, _, _, hms, hmv⟩ := runAgg_spec rows _ agg hr
  obtain ⟨hvt, hst, hkeq, _⟩ := runAgg_inv rows _ agg hr aggInv_empty
  subst hout
  constructor
  · intro hpo
    have hmem : pid ∈ agg.ventas_totales.map Prod.fst := by
      rw [hmv pid]
      exact Or.inr hpo
    have hvpm_nd : (agg.ventas_por_mes.map Prod.fst).Nodup := by
      rw [hkeq]
      exact hvt
    have hmemm : pid ∈ agg.ventas_por_mes.map Prod.fst := by
      rw [hkeq]
      exact hmem
    constructor
    · simp only [materialize]
      rw [List.countP_map]
      exact countP_fst_eq_one hvt hmem
    · simp only [materialize]
      rw [List.countP_map]
      exact countP_fst_eq_one hvpm_nd hmemm
  · intro hpa
    have hmem : pid ∈ agg.stock_actual.map Prod.fst := by
      rw [hms pid]
      exact Or.inr hpa
    simp only [materialize]
    rw [List.countP_map]
    exact countP_fst_eq_one hst hmem

theorem claim_C6_witness :
    sync_local_csv c6rows = .ok c6out ∧
    appearsOut c6rows 1 ∧ appearsAny c6rows 2 ∧
    c6out.ventas_aggregadas.countP (fun v => decide (v.producto_id = 1)) = 1 ∧
    c6out.estacionalidad.countP (fun e => decide (e.producto_id = 1)) = 1 ∧
    c6out.alertas_stock.countP (fun a => decide (a.producto_id = 2)) = 1 :=
  ⟨by decide, by decide, by decide,
   ((claim_C6 c6rows c6out (by decide) 1).1 (by decide)).1,
   ((claim_C6 c6rows c6out (by decide) 1).1 (by decide)).2,
   (claim_C6 c6rows c6out (by decide) 2).2 (by decide)⟩

/-- C7: on every successful run, the total_ventas of the produced
SalesTotal rows sum to the sum of the quantities of all OUTBOUND records
of the batch. -/
theorem claim_C7 (rows : List Row) (out : Output)
    (h : sync_local_csv rows = .ok out) :
    (out.ventas_aggregadas.map VentaRow.total_ventas).sum = outSumAll rows := by
  obtain ⟨agg, hr, hout⟩ := sync_ok_elim h
  obtain ⟨_, _, hsum, _, _⟩ := runAgg_spec rows _ agg hr
  subst hout
  have hz : sumVals agg.ventas_totales = outSumAll rows := by
    simpa [sumVals] using hsum
  simp only [materialize, List.map_map]
  exact hz

theorem claim_C7_witness :
    sync_local_csv c7rows = .ok c7out ∧
    (c7out.ventas_aggregadas.map VentaRow.total_ventas).sum = outSumAll c7rows :=
  ⟨by decide, claim_C7 c7rows c7out (by decide)⟩

/-- C8: on every successful run over a batch of INBOUND/OUTBOUND records,
every product appearing in the batch has a StockAlert row whose stock is
the sum of its INBOUND quantities minus the sum of its OUTBOUND
quantities; a negative difference is emitted as-is. -/
theorem claim_C8 (rows : List Row) (out : Output) (pid : Int)
    (h : sync_local_csv rows = .ok out)
    (hwt : ∀ r ∈ rows, r.tipo = "entrada" ∨ r.tipo = "salida")
    (hpid : ∃ r ∈ rows, r.producto_id = pid) :
    ∃ a ∈ out.alertas_stock, a.producto_id = pid ∧
      a.stock_actual = inSum rows pid - outSum rows pid := by
  have hpa : appearsAny rows pid := by
    obtain ⟨r, hr, hp⟩ := hpid
    exact ⟨r, hr, hwt r hr, hp⟩
  obtain ⟨a, ha, h1, _, h3, _⟩ := sync_stock_entry h hpa
  exact ⟨a, ha, h1, h3⟩

theorem claim_C8_witness :
    sync_local_csv c8rows = .ok c8out ∧
    (∀ r ∈ c8rows, r.tipo = "entrada" ∨ r.tipo = "salida") ∧
    (∃ r ∈ c8rows, r.producto_id = 7) ∧
    ∃ a ∈ c8out.alertas_stock, a.producto_id = 7 ∧
      a.stock_actual = inSum c8rows 7 - outSum c8rows 7 :=
  ⟨by decide, by decide, by decide,
   claim_C8 c8rows c8out 7 (by decide) (by decide) (by decide)⟩

/-- C9: on every successful run, every product with an OUTBOUND record
has a Seasonality row whose twelve month buckets (absent months counting
as 0) sum to that product's total_ventas. -/
theorem claim_C9 (rows : List Row) (out : Output) (pid : Int)
    (h : sync_local_csv rows = .ok out) (hpid : appearsOut rows pid) :
    ∃ v ∈ out.ventas_aggregadas, v.producto_id = pid ∧
      ∃ e ∈ out.estacionalidad, e.producto_id = pid ∧
        (meses.map fun mn => alookupD e.ventas_por_mes mn 0).sum =
          v.total_ventas := by
  obtain ⟨v, hv, hv1, _, hv3⟩ := sync_ventas_entry h hpid
  obtain ⟨e, he, he1, _, he3⟩ := sync_estac_entry h hpid
  exact ⟨v, hv, hv1, e, he, he1, by rw [he3, hv3]⟩

theorem claim_C9_witness :
    sync_local_csv c9rows = .ok c9out ∧ appearsOut c9rows 3 ∧
    ∃ v ∈ c9out.ventas_aggregadas, v.producto_id = 3 ∧
      ∃ e ∈ c9out.estacionalidad, e.producto_id = 3 ∧
        (meses.map fun mn => alookupD e.ventas_por_mes mn 0).sum =
          v.total_ventas :=
  ⟨by decide, by decide, claim_C9 c9rows c9out 3 (by decide) (by decide)⟩

/-- C10: the timestamp is parsed only on the OUTBOUND path: any batch
whose OUTBOUND records all carry acceptable timestamps succeeds, even if
INBOUND records carry malformed strings, and every INBOUND quantity is
still counted in the product's stock. -/
theorem claim_C10 (rows : List Row)
    (hok : ∀ r ∈ rows, r.tipo = "salida" → fechaOk r.fecha = true) :
    ∃ out, sync_local_csv rows = .ok out ∧
      ∀ pid, appearsAny rows pid →
        ∃ a ∈ out.alertas_stock, a.producto_id = pid ∧
          a.stock_actual = inSum rows pid - outSum rows pid := by
  obtain ⟨agg, hagg⟩ :=
    runAgg_ok_of_dates rows ⟨[], [], []⟩
      (fun r hr h2 => fechaOk_elim (hok r hr h2))
  have hsync : sync_local_csv rows = .ok (materialize agg) := by
    unfold sync_local_csv
    rw [hagg]
  refine ⟨materialize agg, hsync, ?_⟩
  intro pid hpa
  obtain ⟨a, ha, h1, _, h3, _⟩ := sync_stock_entry hsync hpa
  exact ⟨a, ha, h1, h3⟩

theorem claim_C10_witness :
    (∀ r ∈ c10rows, r.tipo = "salida" → fechaOk r.fecha = true) ∧
    fechaBadStr (Fecha.str "13-2024-99 zz") = true ∧
    sync_local_csv c10rows = .ok c10out ∧
    ∃ a ∈ c10out.alertas_stock, a.producto_id = 1 ∧
      a.stock_actual = inSum c10rows 1 - outSum c10rows 1 := by
  refine ⟨by decide, by decide, by decide, ?_⟩
  obtain ⟨out, hs, hstock⟩ := claim_C10 c10rows (by decide)
  have hout : out = c10out := by
    have hh : (Except.ok out : Except String Output) = .ok c10out := by
      rw [← hs]
      decide
    simpa using hh
  rw [← hout]
  exact hstock 1 (by decide)

end SmartStock
